import Mathlib

/-!
Verification of the contest/candidate transformation in
`src/ca_secretary_of_state/transform.py` of the
`los-angeles-county-election-results-etl` repository.

The Python source is shallowly embedded: JSON documents become an inductive
`JSON` type (objects model Python dicts with unique, insertion-ordered keys),
fallible code returns `Except Err`, Python ints are `Int`, and Python floats
are modelled as exact rationals (`ℚ`).  Repository code that is not part of
`transform.py` (the `schema` validation module and the `utils` write helpers)
is modelled from the specification and marked as such.
-/

/-- JSON values as loaded by `json.load`.  Objects model Python dicts:
keys are unique and insertion-ordered (duplicate keys in a raw document
collapse to the last occurrence before the transform ever sees them). -/
inductive JSON where
  | null : JSON
  | bool : Bool → JSON
  | str : String → JSON
  | num : ℚ → JSON
  | arr : List JSON → JSON
  | obj : List (String × JSON) → JSON

/-- Errors that can abort a run of the transform: Python `KeyError`,
`TypeError`, `ValueError` from `int()` (the spec's `MalformedVoteCount`),
and schema-validation failure (the spec's `SchemaValidationError`). -/
inductive Err where
  | keyError : String → Err
  | typeError : Err
  | malformedVoteCount : String → Err
  | schemaError : String → Err
deriving DecidableEq

/-- First-match association-list lookup (Python dict subscript on the
unique-key field lists of `JSON.obj`). -/
def getField : List (String × JSON) → String → Option JSON
  | [], _ => none
  | (k', v) :: rest, k => if k' = k then some v else getField rest k

/-- Association-list update: Python dict assignment `d[k] = v` (replaces in
place, preserving insertion order, or appends a new key at the end). -/
def setField : List (String × JSON) → String → JSON → List (String × JSON)
  | [], k, v => [(k, v)]
  | (k', v') :: rest, k, v => if k' = k then (k, v) :: rest else (k', v') :: setField rest k v

/-- Python `d.get(k)` / `k in d`: `some` when the key is present on a dict,
`none` on a missing key or a non-dict value. -/
def JSON.get : JSON → String → Option JSON
  | .obj fields, k => getField fields k
  | _, _ => none

/-- Python `d[k]`: `KeyError` on a dict without the key, `TypeError` when
subscripting a non-dict with a string key. -/
def JSON.getE : JSON → String → Except Err JSON
  | .obj fields, k =>
    match getField fields k with
    | some v => .ok v
    | none => .error (.keyError k)
  | _, _ => .error .typeError

/-- Python dict assignment `d[k] = v` lifted to `JSON` (identity on
non-dicts, which the embedded code never reaches). -/
def JSON.set : JSON → String → JSON → JSON
  | .obj fields, k, v => .obj (setField fields k v)
  | j, _, _ => j

/-- Requires a JSON array (Python iteration / `list.extend` over a value
that must be a list). -/
def JSON.asArr : JSON → Except Err (List JSON)
  | .arr l => .ok l
  | _ => .error .typeError

/-- Python `str()` as used by the f-strings of `transform.py`.  Faithful for
the scalar values that actually occur as titles; container rendering is
abbreviated (no analyzed code path stringifies a container). -/
def JSON.pyStr : JSON → String
  | .null => "None"
  | .bool true => "True"
  | .bool false => "False"
  | .str s => s
  | .num q => toString q.num ++ (if q.den == 1 then "" else "/" ++ toString q.den)
  | .arr _ => "[...]"
  | .obj _ => "\x7b...\x7d"

/-- The whitespace characters stripped by Python `str.strip()` (ASCII
subset; the raw election files are ASCII). -/
def isPyWhitespace (c : Char) : Bool :=
  c = ' ' || c = '\t' || c = '\n' || c = '\r' || c = '\x0b' || c = '\x0c'

/-- Python `value.strip()`. -/
def pyStrip (s : String) : String :=
  ⟨((s.data.dropWhile isPyWhitespace).reverse.dropWhile isPyWhitespace).reverse⟩

/-- Python `s.replace(",", "")`: removing every occurrence of a single
character is filtering it out. -/
def removeCommas (s : String) : String :=
  ⟨s.data.filter (fun c => c ≠ ',')⟩

/-- Digit-tail loop of Python `int(str)` (base 10): after a first digit,
the remainder is digits with single underscores allowed between digits.
`acc` is the value of the digits consumed so far. -/
def goDigits : Nat → List Char → Option Nat
  | acc, [] => some acc
  | acc, c :: rest =>
    if c = '_' then
      match rest with
      | c2 :: rest2 =>
        if c2.isDigit then goDigits (10 * acc + (c2.toNat - 48)) rest2 else none
      | [] => none
    else if c.isDigit then goDigits (10 * acc + (c.toNat - 48)) rest else none

/-- Digit part of Python `int(str)`: a first digit, then `goDigits`. -/
def pyDigitsCore : List Char → Option Nat
  | [] => none
  | c :: rest => if c.isDigit then goDigits (c.toNat - 48) rest else none

/-- Sign handling of Python `int(str)`: an optional `+` or `-` before the
digit part, negating the value for `-`. -/
def pyIntChars : List Char → Option Int
  | [] => none
  | c :: rest =>
    if c = '+' then
      match pyDigitsCore rest with
      | some n => some (n : Int)
      | none => none
    else if c = '-' then
      match pyDigitsCore rest with
      | some n => some (-(n : Int))
      | none => none
    else
      match pyDigitsCore (c :: rest) with
      | some n => some (n : Int)
      | none => none

/-- Python `int(s)` for base 10 on an already-stripped string: an optional
sign followed by digits with single underscores between digits (ASCII
digits; the raw vote counts are ASCII).  `none` models `ValueError`. -/
def pyInt (s : String) : Option Int :=
  pyIntChars s.data

/-- Python `s.lower()` (ASCII case mapping; the correction table's include
column is ASCII). -/
def pyLower (s : String) : String :=
  ⟨s.data.map Char.toLower⟩

/-- Python substring membership `needle in hay` on strings. -/
def strContains (hay needle : String) : Bool :=
  (List.range (hay.data.length + 1)).any (fun i => needle.data.isPrefixOf (hay.data.drop i))

/-- Round-half-to-even on an exact rational, the rounding rule of Python's
builtin `round`. -/
def roundHalfEven (q : ℚ) : ℤ :=
  if q - q.floor < 1 / 2 then q.floor
  else if 1 / 2 < q - q.floor then q.floor + 1
  else if q.floor % 2 = 0 then q.floor else q.floor + 1

/-- Python `round(x, 4)`, with the float modelled as an exact rational. -/
def round4 (q : ℚ) : ℚ :=
  (roundHalfEven (q * 10000) : ℚ) / 10000

/-- The vote share assigned by lines 137-140 of `transform.py`: the rounded
quotient when the contest's vote total is positive, else exactly `0.0`. -/
def sharePct (vote_total v : Int) : ℚ :=
  if 0 < vote_total then round4 ((v : ℚ) / (vote_total : ℚ)) else 0

/-- `clean_votes` (defined identically on `CandidateResultTransformer` and
`ContestTransformer`): `int(value.strip().replace(",", ""))`, where a
non-string value fails (`.strip()` on a non-string) and an unparseable
string raises the spec's `MalformedVoteCount`. -/
def clean_votes (value : JSON) : Except Err Int :=
  match value with
  | .str s =>
    match pyInt (removeCommas (pyStrip s)) with
    | some n => .ok n
    | none => .error (.malformedVoteCount s)
  | _ => .error .typeError

/-- One row of `corrections.csv`, the hand-maintained correction table
(columns `raw_name, include, clean_name, clean_description, clean_geography,
incumbent`; every cell is a string, empty when unset).  The `include` column
is named `incl` because `include` is reserved in Lean. -/
structure Correction where
  raw_name : String
  incl : String
  clean_name : String
  clean_description : String
  clean_geography : String
  incumbent : String
deriving DecidableEq

/-- The mapping built by `get_corrections()`: `{d["raw_name"]: d}` over the
CSV rows, so on duplicate `raw_name`s the last row wins. -/
def findCorrection : List Correction → String → Option Correction
  | [], _ => none
  | c :: rest, t =>
    match findCorrection rest t with
    | some r => some r
    | none => if c.raw_name = t then some c else none

/-- Canonical candidate record. -/
structure CandidateResult where
  name : String
  party : Option String
  votes : Int
  votes_percent : ℚ
  incumbent : Option Bool
deriving DecidableEq

/-- The raw dict built by `CandidateResultTransformer.transform_data` before
schema validation (`party`, `votes_percent` and `incumbent` are still
untyped raw values at this point). -/
structure CandDict where
  name : JSON
  party : JSON
  votes : Int
  votes_percent : JSON
  incumbent : JSON

/-- Canonical contest record (`precincts_reporting` is a passthrough raw
value). -/
structure Contest where
  name : String
  slug : String
  description : Option String
  geography : Option String
  precincts_reporting : JSON
  candidates : List CandidateResult

/-- The dict built by `ContestTransformer.transform_data` before contest
schema validation (`name` is still the untyped raw value). -/
structure ContestData where
  name : JSON
  slug : String
  description : Option String
  geography : Option String
  precincts_reporting : JSON
  candidates : List CandidateResult

/-- The transformed batch: `{"scraped_datetime": ..., "races": [...]}`. -/
structure TransformedBatch where
  scraped_datetime : String
  races : List Contest

/-- Modelled from the spec: the canonical schema's `name` field is a
non-nullable string (`schema.py` is not under `src/`). -/
def validName : JSON → Except Err String
  | .str s => .ok s
  | _ => .error (.schemaError "name")

/-- Modelled from the spec: `party` is a nullable string. -/
def validParty : JSON → Except Err (Option String)
  | .null => .ok none
  | .str s => .ok (some s)
  | _ => .error (.schemaError "party")

/-- Modelled from the spec: `incumbent` is a nullable boolean. -/
def validIncumbent : JSON → Except Err (Option Bool)
  | .null => .ok none
  | .bool b => .ok (some b)
  | _ => .error (.schemaError "incumbent")

/-- Modelled from the spec: `votes_percent` is a float within `[0, 1]`. -/
def validPercent : JSON → Except Err ℚ
  | .num q => if 0 ≤ q ∧ q ≤ 1 then .ok q else .error (.schemaError "votes_percent")
  | _ => .error (.schemaError "votes_percent")

/-- Modelled from the spec: validation of a `schema.CandidateResult`
(`name` a string, `party` nullable string, `votes` an integer `≥ 0`,
`votes_percent` within `[0, 1]`, `incumbent` nullable boolean). -/
def validateCandidate (d : CandDict) : Except Err CandidateResult := do
  let nm ← validName d.name
  let party ← validParty d.party
  if d.votes < 0 then .error (.schemaError "votes")
  else do
    let q ← validPercent d.votes_percent
    let inc ← validIncumbent d.incumbent
    pure ⟨nm, party, d.votes, q, inc⟩

/-- Modelled from the spec: validation of a `schema.Contest` (`name` a
string; `slug`, `description`, `geography` and `candidates` are already in
canonical shape by construction; `precincts_reporting` passes through). -/
def validateContest (d : ContestData) : Except Err Contest :=
  match d.name with
  | .str s => .ok ⟨s, d.slug, d.description, d.geography, d.precincts_reporting, d.candidates⟩
  | _ => .error (.schemaError "name")

/-- Except-valued traversal of a list, the effect order of Python `for`
loops and comprehensions: the first failing element aborts. -/
def exMapM {α β : Type} (f : α → Except Err β) : List α → Except Err (List β)
  | [] => .ok []
  | a :: as => do
    let b ← f a
    let bs ← exMapM f as
    pure (b :: bs)

/-- `ContestTransformer._get_correction`: look the raw title up in the
correction mapping; the source's caught `KeyError` (missing `raceTitle`
key, or title absent from the mapping) is the `none` branch, as the spec's
design notes direct (§9: model the lookup as an explicit optional lookup). -/
def ContestTransformer.get_correction (raw : JSON) (cors : List Correction) : Option Correction :=
  match raw.get "raceTitle" with
  | some (.str t) => findCorrection cors t
  | _ => none

/-- `ContestTransformer.include`: keep the record unless a correction row
exists whose `include` cell does not lower-case to `"yes"`. -/
def ContestTransformer.includeRecord (raw : JSON) (cors : List Correction) : Bool :=
  match ContestTransformer.get_correction raw cors with
  | none => true
  | some corr => pyLower corr.incl == "yes"

/-- `ContestTransformer.correct_name`: the correction's `clean_name` when
present and non-empty (Python `or` on strings), else the raw `raceTitle`
value (a `KeyError` if that key is missing). -/
def ContestTransformer.correct_name (raw : JSON) (cors : List Correction) : Except Err JSON :=
  match ContestTransformer.get_correction raw cors with
  | none => raw.getE "raceTitle"
  | some corr => if corr.clean_name = "" then raw.getE "raceTitle" else .ok (.str corr.clean_name)

/-- `ContestTransformer.correct_description`: the correction's
`clean_description` when present and non-empty, else `None`. -/
def ContestTransformer.correct_description (raw : JSON) (cors : List Correction) : Option String :=
  match ContestTransformer.get_correction raw cors with
  | none => none
  | some corr => if corr.clean_description = "" then none else some corr.clean_description

/-- `ContestTransformer.correct_geography`: the correction's
`clean_geography` when present and non-empty, else `None`. -/
def ContestTransformer.correct_geography (raw : JSON) (cors : List Correction) : Option String :=
  match ContestTransformer.get_correction raw cors with
  | none => none
  | some corr => if corr.clean_geography = "" then none else some corr.clean_geography

/-- Body of the marking loop of `ContestTransformer.correct_incumbent`:
`c["incumbent"] = c["Name"] in correction["incumbent"]` (a `KeyError` on a
missing `Name`, a `TypeError` when `Name` is not a string). -/
def markIncumbent (corr : Correction) (c : JSON) : Except Err JSON := do
  let nm ← c.getE "Name"
  match nm with
  | .str s => pure (c.set "incumbent" (.bool (strContains corr.incumbent s)))
  | _ => .error .typeError

/-- `ContestTransformer.correct_incumbent`: when a correction exists and its
`incumbent` cell is truthy (non-empty), set every candidate's `incumbent`
key to the membership test of its name; otherwise return the list as is. -/
def ContestTransformer.correct_incumbent (raw : JSON) (cors : List Correction)
    (candidate_list : List JSON) : Except Err (List JSON) :=
  match ContestTransformer.get_correction raw cors with
  | some corr =>
    if corr.incumbent = "" then .ok candidate_list
    else exMapM (markIncumbent corr) candidate_list
  | none => .ok candidate_list

/-- `clean_votes(c["Votes"])` as run per candidate on lines 135 and 138. -/
def votesOf (c : JSON) : Except Err Int := do
  clean_votes (← c.getE "Votes")

/-- One iteration of the vote-percentage loop (lines 136-140): recompute the
candidate's parsed votes and store `votes_percent` on its dict. -/
def setPercent (vote_total : Int) (c : JSON) : Except Err JSON := do
  let v ← votesOf c
  pure (c.set "votes_percent" (.num (sharePct vote_total v)))

/-- `CandidateResultTransformer.transform_data`: build the candidate dict
(`party` and `incumbent` via `dict.get` with a `None` default). -/
def CandidateResultTransformer.transform_data (c : JSON) : Except Err CandDict := do
  let nm ← c.getE "Name"
  let votes ← clean_votes (← c.getE "Votes")
  let vp ← c.getE "votes_percent"
  pure ⟨nm, (c.get "Party").getD .null, votes, vp, (c.get "incumbent").getD .null⟩

/-- `CandidateResultTransformer(c).dump()`: transform, then validate against
the candidate schema (the validation half is modelled from the spec, since
`schema.py` is not under `src/`). -/
def CandidateResultTransformer.dump (c : JSON) : Except Err CandidateResult := do
  validateCandidate (← CandidateResultTransformer.transform_data c)

/-- `ContestTransformer.transform_data`, parameterized by the external
`slugify` collaborator: build the contest dict, mark incumbents, sum the
parsed votes, store each candidate's `votes_percent`, then validate each
candidate dict. -/
def ContestTransformer.transform_data (slugify : String → String) (cors : List Correction)
    (raw : JSON) : Except Err ContestData := do
  let nameJ ← ContestTransformer.correct_name raw cors
  let titleJ ← raw.getE "raceTitle"
  let reporting ← raw.getE "Reporting"
  let candsJ ← raw.getE "candidates"
  let rawCands ← candsJ.asArr
  let marked ← ContestTransformer.correct_incumbent raw cors rawCands
  let votes ← exMapM votesOf marked
  let withPct ← exMapM (setPercent votes.sum) marked
  let results ← exMapM CandidateResultTransformer.dump withPct
  pure ⟨nameJ, slugify titleJ.pyStr, ContestTransformer.correct_description raw cors,
        ContestTransformer.correct_geography raw cors, reporting, results⟩

/-- `ContestTransformer(raw, corrections).dump()`: transform, then validate
against the contest schema (the validation half is modelled from the spec). -/
def ContestTransformer.dump (slugify : String → String) (cors : List Correction)
    (raw : JSON) : Except Err Contest := do
  validateContest (← ContestTransformer.transform_data slugify cors raw)

/-- Contest synthesized for one supreme-court retention entry (lines 35-42;
field evaluation order of the Python dict literal preserved). -/
def scEntry (raw race : JSON) : Except Err JSON := do
  let nm ← race.getE "Name"
  let rep ← raw.getE "Reporting"
  let yes ← race.getE "yesVotes"
  let no ← race.getE "noVotes"
  pure (.obj [("raceTitle", .str ("Retain Supreme Court Justice " ++ nm.pyStr)),
              ("Reporting", rep),
              ("candidates", .arr [.obj [("Name", .str "Yes"), ("Votes", yes)],
                                   .obj [("Name", .str "No"), ("Votes", no)]])])

/-- Contest synthesized for one ballot-measure entry (lines 46-53). -/
def bmEntry (raw race : JSON) : Except Err JSON := do
  let num ← race.getE "Number"
  let nm ← race.getE "Name"
  let rep ← raw.getE "Reporting"
  let yes ← race.getE "yesVotes"
  let no ← race.getE "noVotes"
  pure (.obj [("raceTitle", .str ("Proposition " ++ num.pyStr ++ ": " ++ nm.pyStr)),
              ("Reporting", rep),
              ("candidates", .arr [.obj [("Name", .str "Yes"), ("Votes", yes)],
                                   .obj [("Name", .str "No"), ("Votes", no)]])])

/-- The per-document dispatch of the flattening loop (lines 29-56): a
`races` key wins regardless of the directory slug; else the
`supreme-court` and `ballot-measures` slugs synthesize retention /
proposition contests from their category-named lists; else the document
itself is one contest. -/
def flattenDoc (slug : String) (raw : JSON) : Except Err (List JSON) :=
  match raw.get "races" with
  | some r => r.asArr
  | none =>
    if slug = "supreme-court" then do
      exMapM (scEntry raw) (← (← raw.getE "supreme-court").asArr)
    else if slug = "ballot-measures" then do
      exMapM (bmEntry raw) (← (← raw.getE "ballot-measures").asArr)
    else .ok [raw]

/-- The whole flattening loop over the discovered raw files, each given as
(directory slug, parsed document), in discovery order. -/
def flattenAll : List (String × JSON) → Except Err (List JSON)
  | [] => .ok []
  | (slug, doc) :: rest => do
    let cs ← flattenDoc slug doc
    let others ← flattenAll rest
    pure (cs ++ others)

/-- The per-contest loop of `cli` (lines 66-75): drop contests whose
`include()` is false, `dump()` the rest in order. -/
def processContests (slugify : String → String) (cors : List Correction) :
    List JSON → Except Err (List Contest)
  | [] => .ok []
  | contest :: rest =>
    if ContestTransformer.includeRecord contest cors then do
      let t ← ContestTransformer.dump slugify cors contest
      let ts ← processContests slugify cors rest
      pure (t :: ts)
    else processContests slugify cors rest

/-- The pure core of `cli`: flatten every discovered document, then
normalize every included contest, stamping the batch with the injected
timestamp (`utils.now()` is an external clock, passed in). -/
def cliBatch (slugify : String → String) (docs : List (String × JSON))
    (cors : List Correction) (now : String) : Except Err TransformedBatch := do
  let contest_list ← flattenAll docs
  let races ← processContests slugify cors contest_list
  pure ⟨now, races⟩

/-- Modelled from the spec: `utils.write_json` (not under `src/`) replaces
the file at `path` in the output directory, here a (path, batch) store. -/
def storeWrite : List (String × TransformedBatch) → String → TransformedBatch →
    List (String × TransformedBatch)
  | [], path, b => [(path, b)]
  | (p', b') :: rest, path, b =>
    if p' = path then (path, b) :: rest else (p', b') :: storeWrite rest path b

/-- `cli` at the driver boundary: on success write the timestamped file and
then overwrite `latest.json`; an error propagates before any write, leaving
the output directory unchanged. -/
def runCli (slugify : String → String) (docs : List (String × JSON))
    (cors : List Correction) (now : String)
    (store : List (String × TransformedBatch)) : List (String × TransformedBatch) :=
  match cliBatch slugify docs cors now with
  | .ok batch => storeWrite (storeWrite store (now ++ ".json") batch) "latest.json" batch
  | .error _ => store

theorem exBind_ok {α β : Type} {x : Except Err α} {f : α → Except Err β} {b : β} :
    x >>= f = .ok b ↔ ∃ a, x = .ok a ∧ f a = .ok b := by
  cases x with
  | ok a => simp [Bind.bind, Except.bind]
  | error e => simp [Bind.bind, Except.bind]

theorem exPure_ok {α : Type} {a b : α} : (pure a : Except Err α) = .ok b ↔ a = b := by
  simp [pure, Except.pure]

theorem exMapM_ok_length {α β : Type} {f : α → Except Err β} :
    ∀ {l : List α} {l' : List β}, exMapM f l = .ok l' → l'.length = l.length := by
  intro l
  induction l with
  | nil => intro l' h; simp only [exMapM, Except.ok.injEq] at h; simp [← h]
  | cons a as ih =>
    intro l' h
    simp only [exMapM] at h
    rw [exBind_ok] at h
    obtain ⟨b, hb, h⟩ := h
    rw [exBind_ok] at h
    obtain ⟨bs, hbs, h⟩ := h
    rw [exPure_ok] at h
    subst h
    simp [ih hbs]

theorem exMapM_ok_getElem {α β : Type} {f : α → Except Err β} :
    ∀ {l : List α} {l' : List β}, exMapM f l = .ok l' →
      ∀ i (hi : i < l.length) (hi' : i < l'.length), f l[i] = .ok l'[i] := by
  intro l
  induction l with
  | nil => intro l' h i hi; exact absurd hi (by simp)
  | cons a as ih =>
    intro l' h i hi hi'
    simp only [exMapM] at h
    rw [exBind_ok] at h
    obtain ⟨b, hb, h⟩ := h
    rw [exBind_ok] at h
    obtain ⟨bs, hbs, h⟩ := h
    rw [exPure_ok] at h
    subst h
    match i with
    | 0 => simpa using hb
    | i + 1 =>
      have hi2 : i < as.length := by simpa using hi
      have hi2' : i < bs.length := by simpa using hi'
      simpa using ih hbs i hi2 hi2'

theorem exMapM_ok_of_all {α β : Type} {f : α → Except Err β} {g : α → β} :
    ∀ {l : List α}, (∀ a ∈ l, f a = .ok (g a)) → exMapM f l = .ok (l.map g) := by
  intro l
  induction l with
  | nil => intro _; rfl
  | cons a as ih =>
    intro h
    simp only [exMapM]
    rw [exBind_ok]
    refine ⟨g a, h a (by simp), ?_⟩
    rw [exBind_ok]
    exact ⟨as.map g, ih (fun x hx => h x (by simp [hx])), by simp [exPure_ok]⟩

theorem getField_setField_self (fs : List (String × JSON)) (k : String) (v : JSON) :
    getField (setField fs k v) k = some v := by
  induction fs with
  | nil => simp [setField, getField]
  | cons p rest ih =>
    by_cases hk : p.1 = k
    · simp [setField, hk, getField]
    · simp [setField, hk, getField, ih]

theorem getField_setField_ne (fs : List (String × JSON)) {k k' : String} (v : JSON)
    (h : k' ≠ k) : getField (setField fs k v) k' = getField fs k' := by
  induction fs with
  | nil =>
    simp only [setField, getField]
    rw [if_neg (Ne.symm h)]
  | cons p rest ih =>
    obtain ⟨pk, pv⟩ := p
    simp only [setField]
    by_cases hk : pk = k
    · subst hk
      rw [if_pos rfl]
      simp only [getField]
      rw [if_neg (Ne.symm h), if_neg (Ne.symm h)]
    · rw [if_neg hk]
      simp only [getField]
      by_cases hk' : pk = k'
      · rw [if_pos hk', if_pos hk']
      · rw [if_neg hk', if_neg hk', ih]

theorem JSON.get_set_ne (j : JSON) {k k' : String} (v : JSON) (h : k' ≠ k) :
    (j.set k v).get k' = j.get k' := by
  cases j <;> simp [JSON.set, JSON.get]
  exact getField_setField_ne _ v h

theorem JSON.get_obj_set_self (fs : List (String × JSON)) (k : String) (v : JSON) :
    ((JSON.obj fs).set k v).get k = some v := by
  simp [JSON.set, JSON.get, getField_setField_self]

theorem JSON.getE_ok_iff {j : JSON} {k : String} {v : JSON} :
    j.getE k = .ok v ↔ j.get k = some v := by
  cases j <;> simp [JSON.getE, JSON.get]
  cases h : getField _ k <;> simp

theorem JSON.get_some_obj {j : JSON} {k : String} {v : JSON} (h : j.get k = some v) :
    ∃ fs, j = .obj fs := by
  cases j with
  | obj fs => exact ⟨fs, rfl⟩
  | _ => simp [JSON.get] at h

theorem JSON.asArr_ok {j : JSON} {l : List JSON} (h : j.asArr = .ok l) : j = .arr l := by
  cases j with
  | arr l2 => simp only [JSON.asArr, Except.ok.injEq] at h; rw [h]
  | _ => simp [JSON.asArr] at h

theorem validName_ok {j : JSON} {s : String} (h : validName j = .ok s) : j = .str s := by
  cases j with
  | str t => simp only [validName, Except.ok.injEq] at h; rw [h]
  | _ => simp [validName] at h

theorem validPercent_ok {j : JSON} {q : ℚ} (h : validPercent j = .ok q) :
    j = .num q ∧ 0 ≤ q ∧ q ≤ 1 := by
  cases j with
  | num p =>
    simp only [validPercent] at h
    split at h
    · simp only [Except.ok.injEq] at h
      subst h
      simp_all
    · simp at h
  | _ => simp [validPercent] at h

theorem validateCandidate_ok {d : CandDict} {r : CandidateResult}
    (h : validateCandidate d = .ok r) :
    d.name = .str r.name ∧ d.votes = r.votes ∧ 0 ≤ r.votes ∧
    d.votes_percent = .num r.votes_percent ∧ 0 ≤ r.votes_percent ∧ r.votes_percent ≤ 1 := by
  unfold validateCandidate at h
  rw [exBind_ok] at h
  obtain ⟨nm, hnm, h⟩ := h
  rw [exBind_ok] at h
  obtain ⟨party, hparty, h⟩ := h
  rcases Int.lt_or_le d.votes 0 with hneg | hpos
  · rw [if_pos hneg] at h
    exact absurd h (by simp)
  · rw [if_neg (by omega)] at h
    rw [exBind_ok] at h
    obtain ⟨q, hq, h⟩ := h
    rw [exBind_ok] at h
    obtain ⟨inc, hinc, h⟩ := h
    rw [exPure_ok] at h
    subst h
    obtain ⟨hj, h0, h1⟩ := validPercent_ok hq
    exact ⟨validName_ok hnm, rfl, hpos, hj, h0, h1⟩

theorem validateContest_ok {d : ContestData} {c : Contest} (h : validateContest d = .ok c) :
    d.name = .str c.name ∧ c.slug = d.slug ∧ c.candidates = d.candidates := by
  cases hn : d.name with
  | str s =>
    rw [validateContest, hn] at h
    simp only [Except.ok.injEq] at h
    subst h
    exact ⟨rfl, rfl, rfl⟩
  | _ => rw [validateContest, hn] at h; simp at h

theorem candidate_dump_ok {c : JSON} {r : CandidateResult}
    (h : CandidateResultTransformer.dump c = .ok r) :
    c.get "Name" = some (.str r.name) ∧
    (∃ w, c.get "Votes" = some w ∧ clean_votes w = .ok r.votes) ∧
    c.get "votes_percent" = some (.num r.votes_percent) ∧
    0 ≤ r.votes ∧ 0 ≤ r.votes_percent ∧ r.votes_percent ≤ 1 := by
  unfold CandidateResultTransformer.dump at h
  rw [exBind_ok] at h
  obtain ⟨d, hd, hv⟩ := h
  unfold CandidateResultTransformer.transform_data at hd
  rw [exBind_ok] at hd
  obtain ⟨nm, hnm, hd⟩ := hd
  rw [exBind_ok] at hd
  obtain ⟨w, hw, hd⟩ := hd
  rw [exBind_ok] at hd
  obtain ⟨votes, hvotes, hd⟩ := hd
  rw [exBind_ok] at hd
  obtain ⟨vp, hvp, hd⟩ := hd
  rw [exPure_ok] at hd
  subst hd
  obtain ⟨h1, h2, h3, h4, h5, h6⟩ := validateCandidate_ok hv
  simp only at h1 h2 h4
  subst h1
  refine ⟨JSON.getE_ok_iff.mp hnm, ⟨w, JSON.getE_ok_iff.mp hw, by rw [h2] at hvotes; exact hvotes⟩,
    ?_, h3, h5, h6⟩
  rw [h4] at hvp
  exact JSON.getE_ok_iff.mp hvp

theorem markIncumbent_ok {corr : Correction} {c c' : JSON} (h : markIncumbent corr c = .ok c') :
    ∃ s, c.get "Name" = some (.str s) ∧
      c' = c.set "incumbent" (.bool (strContains corr.incumbent s)) := by
  unfold markIncumbent at h
  rw [exBind_ok] at h
  obtain ⟨nm, hnm, h⟩ := h
  cases nm with
  | str s =>
    rw [exPure_ok] at h
    exact ⟨s, JSON.getE_ok_iff.mp hnm, h.symm⟩
  | _ => simp at h

theorem correct_incumbent_ok {raw : JSON} {cors : List Correction} {l l' : List JSON}
    (h : ContestTransformer.correct_incumbent raw cors l = .ok l') :
    l'.length = l.length ∧ ∀ i (hi : i < l.length) (hi' : i < l'.length),
      l'[i].get "Name" = l[i].get "Name" ∧ l'[i].get "Votes" = l[i].get "Votes" := by
  unfold ContestTransformer.correct_incumbent at h
  split at h
  case h_1 corr heq =>
    split at h
    · simp only [Except.ok.injEq] at h
      subst h
      exact ⟨rfl, fun i hi hi' => ⟨rfl, rfl⟩⟩
    · refine ⟨exMapM_ok_length h, fun i hi hi' => ?_⟩
      obtain ⟨s, hs, hset⟩ := markIncumbent_ok (exMapM_ok_getElem h i hi hi')
      rw [hset]
      constructor
      · exact JSON.get_set_ne _ _ (by decide)
      · exact JSON.get_set_ne _ _ (by decide)
  case h_2 =>
    simp only [Except.ok.injEq] at h
    subst h
    exact ⟨rfl, fun i hi hi' => ⟨rfl, rfl⟩⟩

theorem votesOf_ok {c : JSON} {v : Int} (h : votesOf c = .ok v) :
    ∃ w fs, c = .obj fs ∧ c.get "Votes" = some w ∧ clean_votes w = .ok v := by
  unfold votesOf at h
  rw [exBind_ok] at h
  obtain ⟨w, hw, h⟩ := h
  have hg := JSON.getE_ok_iff.mp hw
  obtain ⟨fs, hfs⟩ := JSON.get_some_obj hg
  exact ⟨w, fs, hfs, hg, h⟩

theorem setPercent_ok {T : Int} {c c' : JSON} (h : setPercent T c = .ok c') :
    ∃ v, votesOf c = .ok v ∧ c' = c.set "votes_percent" (.num (sharePct T v)) := by
  unfold setPercent at h
  rw [exBind_ok] at h
  obtain ⟨v, hv, h⟩ := h
  rw [exPure_ok] at h
  exact ⟨v, hv, h.symm⟩

theorem listGetElem_congr {α : Type} {l l' : List α} (h : l = l') {i : Nat}
    (hi : i < l.length) (hi' : i < l'.length) : l[i] = l'[i] := by
  subst h
  rfl

theorem ContestTransformer.dump_ok_name_slug {slugify : String → String}
    {cors : List Correction} {raw : JSON} {contest : Contest}
    (h : ContestTransformer.dump slugify cors raw = .ok contest) :
    ∃ titleJ, raw.get "raceTitle" = some titleJ ∧ contest.slug = slugify titleJ.pyStr ∧
      ContestTransformer.correct_name raw cors = .ok (.str contest.name) := by
  unfold ContestTransformer.dump at h
  rw [exBind_ok] at h
  obtain ⟨d, hd, hv⟩ := h
  obtain ⟨hdn, hslug, _⟩ := validateContest_ok hv
  unfold ContestTransformer.transform_data at hd
  rw [exBind_ok] at hd
  obtain ⟨nameJ, hname, hd⟩ := hd
  rw [exBind_ok] at hd
  obtain ⟨titleJ, htitle, hd⟩ := hd
  rw [exBind_ok] at hd
  obtain ⟨reporting, hrep, hd⟩ := hd
  rw [exBind_ok] at hd
  obtain ⟨candsJ, hcj, hd⟩ := hd
  rw [exBind_ok] at hd
  obtain ⟨rawCands, hrc, hd⟩ := hd
  rw [exBind_ok] at hd
  obtain ⟨marked, hmk, hd⟩ := hd
  rw [exBind_ok] at hd
  obtain ⟨votes, hvt, hd⟩ := hd
  rw [exBind_ok] at hd
  obtain ⟨withPct, hwp, hd⟩ := hd
  rw [exBind_ok] at hd
  obtain ⟨results, hres, hd⟩ := hd
  rw [exPure_ok] at hd
  subst hd
  have hdn2 : nameJ = JSON.str contest.name := hdn
  have hslug2 : contest.slug = slugify titleJ.pyStr := hslug
  rw [hdn2] at hname
  exact ⟨titleJ, JSON.getE_ok_iff.mp htitle, hslug2, hname⟩

theorem ContestTransformer.dump_ok_spec {slugify : String → String}
    {cors : List Correction} {raw : JSON} {contest : Contest}
    (h : ContestTransformer.dump slugify cors raw = .ok contest) :
    ∃ rawCands : List JSON,
      raw.get "candidates" = some (.arr rawCands) ∧
      contest.candidates.length = rawCands.length ∧
      (∀ i (h1 : i < rawCands.length) (h2 : i < contest.candidates.length),
        rawCands[i].get "Name" = some (.str (contest.candidates[i].name))) ∧
      (∀ r ∈ contest.candidates, 0 ≤ r.votes ∧
        r.votes_percent
          = sharePct ((contest.candidates.map CandidateResult.votes).sum) r.votes) := by
  unfold ContestTransformer.dump at h
  rw [exBind_ok] at h
  obtain ⟨d, hd, hv⟩ := h
  obtain ⟨hdn, hslug, hcands⟩ := validateContest_ok hv
  unfold ContestTransformer.transform_data at hd
  rw [exBind_ok] at hd
  obtain ⟨nameJ, hname, hd⟩ := hd
  rw [exBind_ok] at hd
  obtain ⟨titleJ, htitle, hd⟩ := hd
  rw [exBind_ok] at hd
  obtain ⟨reporting, hrep, hd⟩ := hd
  rw [exBind_ok] at hd
  obtain ⟨candsJ, hcj, hd⟩ := hd
  rw [exBind_ok] at hd
  obtain ⟨rawCands, hrc, hd⟩ := hd
  rw [exBind_ok] at hd
  obtain ⟨marked, hmk, hd⟩ := hd
  rw [exBind_ok] at hd
  obtain ⟨votes, hvt, hd⟩ := hd
  rw [exBind_ok] at hd
  obtain ⟨withPct, hwp, hd⟩ := hd
  rw [exBind_ok] at hd
  obtain ⟨results, hres, hd⟩ := hd
  rw [exPure_ok] at hd
  subst hd
  have hcands2 : contest.candidates = results := hcands
  obtain ⟨lenMk, hmkPt⟩ := correct_incumbent_ok hmk
  have lenVotes := exMapM_ok_length hvt
  have lenPct := exMapM_ok_length hwp
  have lenRes := exMapM_ok_length hres
  have key : ∀ i (hi : i < marked.length) (h2 : i < results.length) (h3 : i < votes.length),
      results[i].votes = votes[i] ∧
      results[i].votes_percent = sharePct votes.sum (votes[i]) ∧
      marked[i].get "Name" = some (.str (results[i].name)) ∧
      0 ≤ results[i].votes := by
    intro i hi h2 h3
    have hiw : i < withPct.length := by omega
    have hpctI : setPercent votes.sum (marked[i]) = .ok (withPct[i]) :=
      exMapM_ok_getElem hwp i hi hiw
    obtain ⟨v, hvOf, hset⟩ := setPercent_ok hpctI
    have hvI : votesOf (marked[i]) = .ok (votes[i]) := exMapM_ok_getElem hvt i hi h3
    have hveq : v = votes[i] := by
      rw [hvOf] at hvI
      simpa using hvI
    subst hveq
    obtain ⟨w0, fs, hobj, hw0, hcw0⟩ := votesOf_ok hvI
    have hdumpI : CandidateResultTransformer.dump (withPct[i]) = .ok (results[i]) :=
      exMapM_ok_getElem hres i hiw h2
    obtain ⟨hNm, ⟨w, hwget, hcw⟩, hvp, hv0, hp0, hp1⟩ := candidate_dump_ok hdumpI
    have hVpres : (withPct[i]).get "Votes" = (marked[i]).get "Votes" := by
      rw [hset]
      exact JSON.get_set_ne _ _ (by decide)
    rw [hVpres, hw0] at hwget
    have hww : w0 = w := by simpa using hwget
    rw [hww] at hcw0
    rw [hcw] at hcw0
    have hrv : results[i].votes = votes[i] := by simpa using hcw0
    have hvp2 : (withPct[i]).get "votes_percent"
        = some (.num (sharePct votes.sum (votes[i]))) := by
      rw [hset, hobj]
      exact JSON.get_obj_set_self _ _ _
    have hpc : results[i].votes_percent = sharePct votes.sum (votes[i]) := by
      have h12 := hvp2.symm.trans hvp
      simpa using h12.symm
    have hNpres : (withPct[i]).get "Name" = (marked[i]).get "Name" := by
      rw [hset]
      exact JSON.get_set_ne _ _ (by decide)
    rw [hNpres] at hNm
    exact ⟨hrv, hpc, hNm, hv0⟩
  have votesEq : votes = results.map CandidateResult.votes := by
    apply List.ext_getElem (by simp only [List.length_map]; omega)
    intro i h1 h2
    rw [List.getElem_map]
    exact ((key i (by omega) (by simpa using h2) h1).1).symm
  have hsum : (contest.candidates.map CandidateResult.votes).sum = votes.sum := by
    rw [hcands2, ← votesEq]
  refine ⟨rawCands, ?_, ?_, ?_, ?_⟩
  · have hg := JSON.getE_ok_iff.mp hcj
    rw [JSON.asArr_ok hrc] at hg
    exact hg
  · rw [hcands2]
    omega
  · intro i h1 h2
    have h2r : i < results.length := by rw [← hcands2]; exact h2
    have hcc : contest.candidates[i] = results[i] := listGetElem_congr hcands2 h2 h2r
    rw [hcc]
    have hnm := (key i (by omega) h2r (by omega)).2.2.1
    have hmn := (hmkPt i (by omega) (by omega)).1
    rw [← hmn]
    exact hnm
  · intro r hr
    rw [hcands2] at hr
    obtain ⟨i, hilt, hig⟩ := List.mem_iff_getElem.mp hr
    have hks := key i (by omega) hilt (by omega)
    rw [hsum]
    subst hig
    exact ⟨hks.2.2.2, by rw [hks.2.1, hks.1]⟩

theorem roundHalfEven_close (q : ℚ) : |(roundHalfEven q : ℚ) - q| ≤ 1 / 2 := by
  have h1 : ((q.floor : ℤ) : ℚ) ≤ q := Rat.le_floor.mp le_rfl
  have h2 : q < (q.floor : ℚ) + 1 := by
    by_contra hc
    push_neg at hc
    have h3 : (q.floor + 1 : ℤ) ≤ q.floor := Rat.le_floor.mpr (by push_cast; linarith)
    omega
  unfold roundHalfEven
  split_ifs with ha hb hc
  · rw [abs_le]
    constructor <;> linarith
  · rw [abs_le]
    push_cast
    constructor <;> linarith
  · push_neg at ha hb
    rw [abs_le]
    constructor <;> linarith
  · push_neg at ha hb
    rw [abs_le]
    push_cast
    constructor <;> linarith

theorem round4_close (q : ℚ) : |round4 q - q| ≤ 1 / 20000 := by
  have h := roundHalfEven_close (q * 10000)
  rw [round4]
  have e : (roundHalfEven (q * 10000) : ℚ) / 10000 - q
      = ((roundHalfEven (q * 10000) : ℚ) - q * 10000) / 10000 := by ring
  rw [e, abs_div]
  rw [abs_of_pos (by norm_num : (0 : ℚ) < 10000)]
  linarith

theorem sum_sharePct_close {T : Int} (hT : 0 < T) :
    ∀ l : List CandidateResult,
      (∀ r ∈ l, r.votes_percent = sharePct T r.votes) →
      |(l.map CandidateResult.votes_percent).sum
          - (l.map (fun r => (r.votes : ℚ) / (T : ℚ))).sum|
        ≤ (l.length : ℚ) * (1 / 20000) := by
  intro l
  induction l with
  | nil => simp
  | cons a as ih =>
    intro h
    have ha := h a (by simp)
    have htail := ih (fun r hr => h r (by simp [hr]))
    simp only [List.map_cons, List.sum_cons, List.length_cons]
    have hdist : a.votes_percent + (as.map CandidateResult.votes_percent).sum
        - ((a.votes : ℚ) / (T : ℚ) + (as.map (fun r => (r.votes : ℚ) / (T : ℚ))).sum)
        = (a.votes_percent - (a.votes : ℚ) / (T : ℚ))
          + ((as.map CandidateResult.votes_percent).sum
             - (as.map (fun r => (r.votes : ℚ) / (T : ℚ))).sum) := by ring
    rw [hdist]
    have hhead : |a.votes_percent - (a.votes : ℚ) / (T : ℚ)| ≤ 1 / 20000 := by
      rw [ha, sharePct, if_pos hT]
      exact round4_close _
    have habs := abs_add (a.votes_percent - (a.votes : ℚ) / (T : ℚ))
      ((as.map CandidateResult.votes_percent).sum
        - (as.map (fun r => (r.votes : ℚ) / (T : ℚ))).sum)
    push_cast
    push_cast at htail
    linarith

theorem list_sum_div (T : ℚ) (l : List CandidateResult) :
    (l.map (fun r => (r.votes : ℚ) / T)).sum = (l.map (fun r => ((r.votes : ℤ) : ℚ))).sum / T := by
  induction l with
  | nil => simp
  | cons a as ih =>
    simp only [List.map_cons, List.sum_cons, ih]
    ring

theorem list_votes_cast (l : List CandidateResult) :
    (l.map (fun r => ((r.votes : ℤ) : ℚ))).sum = (((l.map CandidateResult.votes).sum : ℤ) : ℚ) := by
  induction l with
  | nil => simp
  | cons a as ih => simp [ih]

/-- Spec-side check: no two consecutive underscores. -/
def noDoubleUnderscore : List Char → Bool
  | [] => true
  | [_] => true
  | a :: b :: rest => !(a = '_' && b = '_') && noDoubleUnderscore (b :: rest)

/-- Spec-side check: the string does not end in an underscore. -/
def lastNotUnderscore : List Char → Bool
  | [] => true
  | [c] => decide (c ≠ '_')
  | _ :: b :: rest => lastNotUnderscore (b :: rest)

/-- Spec-side shape of the digit tail accepted after a first digit. -/
def tailDigitsOK (cs : List Char) : Bool :=
  cs.all (fun c => c.isDigit || c = '_') && noDoubleUnderscore cs && lastNotUnderscore cs

/-- Spec-side shape of a full Python digit part: a leading digit, every
character a digit or an underscore, no doubled and no trailing underscore. -/
def pyIntShapeOK (cs : List Char) : Bool :=
  (match cs.head? with | some c => c.isDigit | none => false) && tailDigitsOK cs

/-- Spec-side value: the digits with the underscores ignored. -/
def digitsValue (cs : List Char) : Nat :=
  (cs.filter Char.isDigit).foldl (fun acc c => 10 * acc + (c.toNat - 48)) 0

theorem tailOK_cons_digit (c : Char) (rest : List Char) (h : c.isDigit) :
    tailDigitsOK (c :: rest) = tailDigitsOK rest := by
  have hne : c ≠ '_' := by
    intro he
    rw [he] at h
    simp [Char.isDigit] at h
  cases rest with
  | nil => simp [tailDigitsOK, noDoubleUnderscore, lastNotUnderscore, h, hne]
  | cons b r => simp [tailDigitsOK, noDoubleUnderscore, lastNotUnderscore, h, hne, Bool.and_assoc]

theorem tailOK_underscore_digit (c2 : Char) (rest2 : List Char) (h : c2.isDigit) :
    tailDigitsOK ('_' :: c2 :: rest2) = tailDigitsOK rest2 := by
  have hne : c2 ≠ '_' := by
    intro he
    rw [he] at h
    simp [Char.isDigit] at h
  have step : tailDigitsOK ('_' :: c2 :: rest2) = tailDigitsOK (c2 :: rest2) := by
    simp [tailDigitsOK, noDoubleUnderscore, lastNotUnderscore, h, hne]
  rw [step, tailOK_cons_digit c2 rest2 h]

theorem goDigits_spec : ∀ (n : Nat) (cs : List Char), cs.length ≤ n → ∀ acc,
    goDigits acc cs = if tailDigitsOK cs
      then some ((cs.filter Char.isDigit).foldl (fun a c => 10 * a + (c.toNat - 48)) acc)
      else none := by
  intro n
  induction n with
  | zero =>
    intro cs hcs acc
    have hnil : cs = [] := List.eq_nil_of_length_eq_zero (by omega)
    subst hnil
    simp [goDigits, tailDigitsOK, noDoubleUnderscore, lastNotUnderscore]
  | succ n ih =>
    intro cs hcs acc
    match cs with
    | [] => simp [goDigits, tailDigitsOK, noDoubleUnderscore, lastNotUnderscore]
    | c :: rest =>
      by_cases hc : c = '_'
      · subst hc
        match rest with
        | [] => simp [goDigits, tailDigitsOK, lastNotUnderscore]
        | c2 :: rest2 =>
          by_cases hc2 : c2.isDigit
          · have hg : goDigits acc ('_' :: c2 :: rest2)
                = goDigits (10 * acc + (c2.toNat - 48)) rest2 := by
              simp [goDigits, hc2]
            rw [hg, ih rest2 (by simp at hcs ⊢; omega) _]
            rw [tailOK_underscore_digit c2 rest2 hc2]
            have hU : ('_').isDigit = false := by decide
            have hval : ('_' :: c2 :: rest2).filter Char.isDigit
                = c2 :: rest2.filter Char.isDigit := by
              simp [List.filter_cons, hc2, hU]
            rw [hval]
            simp [List.foldl_cons]
          · have hg : goDigits acc ('_' :: c2 :: rest2) = none := by
              simp [goDigits, hc2]
            rw [hg]
            by_cases hc2u : c2 = '_'
            · subst hc2u
              simp [tailDigitsOK, noDoubleUnderscore]
            · have : tailDigitsOK ('_' :: c2 :: rest2) = false := by
                simp [tailDigitsOK, List.all_cons, hc2, hc2u]
              rw [this]
              simp
      · by_cases hcd : c.isDigit
        · have hg : goDigits acc (c :: rest) = goDigits (10 * acc + (c.toNat - 48)) rest := by
            rw [goDigits.eq_def]
            simp [hc, hcd]
          rw [hg, ih rest (by simp at hcs ⊢; omega) _]
          rw [tailOK_cons_digit c rest hcd]
          have hval : (c :: rest).filter Char.isDigit = c :: rest.filter Char.isDigit := by
            simp [List.filter_cons, hcd]
          rw [hval]
          simp [List.foldl_cons]
        · have hg : goDigits acc (c :: rest) = none := by
            rw [goDigits.eq_def]
            simp [hc, hcd]
          rw [hg]
          have : tailDigitsOK (c :: rest) = false := by
            simp [tailDigitsOK, List.all_cons, hcd, hc]
          rw [this]
          simp

theorem pyDigitsCore_spec (cs : List Char) :
    pyDigitsCore cs = if pyIntShapeOK cs then some (digitsValue cs) else none := by
  match cs with
  | [] => simp [pyDigitsCore, pyIntShapeOK]
  | c :: rest =>
    by_cases hcd : c.isDigit
    · have hg : pyDigitsCore (c :: rest) = goDigits (c.toNat - 48) rest := by
        simp [pyDigitsCore, hcd]
      rw [hg, goDigits_spec rest.length rest le_rfl _]
      have hshape : pyIntShapeOK (c :: rest) = tailDigitsOK rest := by
        simp only [pyIntShapeOK, List.head?_cons, hcd, Bool.true_and]
        exact tailOK_cons_digit c rest hcd
      rw [hshape]
      have hval : digitsValue (c :: rest)
          = (rest.filter Char.isDigit).foldl (fun a c => 10 * a + (c.toNat - 48)) (c.toNat - 48) := by
        simp [digitsValue, List.filter_cons, hcd, List.foldl_cons]
      rw [hval]
    · simp [pyDigitsCore, hcd, pyIntShapeOK]

/-- Spec-side reading of the amended parsing rule: an optional sign, then a
digit string of the shape `pyIntShapeOK`, whose value is the digits folded
with underscores ignored. -/
def spec_int : List Char → Option Int
  | [] => none
  | c :: rest =>
    if c = '+' then
      if pyIntShapeOK rest then some (digitsValue rest : Int) else none
    else if c = '-' then
      if pyIntShapeOK rest then some (-(digitsValue rest : Int)) else none
    else if pyIntShapeOK (c :: rest) then some (digitsValue (c :: rest) : Int) else none

/-- Spec-side reading of the whole amended vote-count parsing rule. -/
def spec_clean_votes (s : String) : Option Int :=
  spec_int ((removeCommas (pyStrip s)).data)

theorem pyIntChars_spec (cs : List Char) : pyIntChars cs = spec_int cs := by
  cases cs with
  | nil => rfl
  | cons c rest =>
    simp only [pyIntChars, spec_int]
    by_cases hp : c = '+'
    · rw [if_pos hp, if_pos hp, pyDigitsCore_spec]
      by_cases hs : pyIntShapeOK rest = true
      · rw [if_pos hs]
        simp [hs]
      · rw [if_neg hs]
        simp [hs]
    · rw [if_neg hp, if_neg hp]
      by_cases hm : c = '-'
      · rw [if_pos hm, if_pos hm, pyDigitsCore_spec]
        by_cases hs : pyIntShapeOK rest = true
        · rw [if_pos hs]
          simp [hs]
        · rw [if_neg hs]
          simp [hs]
      · rw [if_neg hm, if_neg hm, pyDigitsCore_spec]
        by_cases hs : pyIntShapeOK (c :: rest) = true
        · rw [if_pos hs]
          simp [hs]
        · rw [if_neg hs]
          simp [hs]

theorem pyInt_spec (s : String) : pyInt s = spec_int s.data := by
  rw [pyInt, pyIntChars_spec]

theorem clean_votes_spec (s : String) :
    clean_votes (.str s) = match spec_clean_votes s with
      | some n => .ok n
      | none => .error (.malformedVoteCount s) := by
  rw [clean_votes, spec_clean_votes, ← pyInt_spec]

theorem exBind_left {α β : Type} (a : α) (f : α → Except Err β) :
    (Except.ok a : Except Err α) >>= f = f a := rfl

theorem exBind_error {α β : Type} (e : Err) (f : α → Except Err β) :
    (Except.error e : Except Err α) >>= f = .error e := rfl

theorem processContests_eq_filter (slugify : String → String) (cors : List Correction)
    (l : List JSON) :
    processContests slugify cors l
      = exMapM (ContestTransformer.dump slugify cors)
          (l.filter (fun x => ContestTransformer.includeRecord x cors)) := by
  induction l with
  | nil => rfl
  | cons c rest ih =>
    by_cases hc : ContestTransformer.includeRecord c cors = true
    · have hf : (c :: rest).filter (fun x => ContestTransformer.includeRecord x cors)
          = c :: rest.filter (fun x => ContestTransformer.includeRecord x cors) := by
        simp [List.filter_cons, hc]
      rw [hf]
      simp only [processContests, if_pos hc, exMapM]
      cases hd : ContestTransformer.dump slugify cors c with
      | error e => rw [exBind_error, exBind_error]
      | ok t =>
        rw [exBind_left, exBind_left, ih]
    · have hf : (c :: rest).filter (fun x => ContestTransformer.includeRecord x cors)
          = rest.filter (fun x => ContestTransformer.includeRecord x cors) := by
        simp [List.filter_cons, hc]
      rw [hf]
      simp only [processContests, if_neg hc]
      exact ih

/-- Candidate dict as it appears in the raw race files. -/
def mkCand (n v : String) : JSON := .obj [("Name", .str n), ("Votes", .str v)]

/-- A small two-candidate raw contest used as a concrete witness input. -/
def rawRaceAB : JSON :=
  .obj [("raceTitle", .str "Race"), ("Reporting", .str "50%"),
        ("candidates", .arr [mkCand "A" "1", mkCand "B" "1"])]

/-- The canonical contest produced from `rawRaceAB` with no corrections. -/
def contestRaceAB : Contest :=
  ⟨"Race", "Race", none, none, .str "50%",
   [⟨"A", none, 1, 1 / 2, none⟩, ⟨"B", none, 1, 1 / 2, none⟩]⟩

/-- A five-candidate contest whose rounded shares sum to 0.9998. -/
def rawFiveCands : JSON :=
  .obj [("raceTitle", .str "T"), ("Reporting", .str "100%"),
        ("candidates", .arr [mkCand "A" "10002", mkCand "B" "10002", mkCand "C" "10002",
                             mkCand "D" "10002", mkCand "E" "9992"])]

/-- A four-candidate contest whose rounded shares also sum to 0.9998:
every share sits on an exact .00005 tie that rounds down to an even
digit (4001/20000 = 0.20005 → 0.2, 7997/20000 = 0.39985 → 0.3998). -/
def rawFourCands : JSON :=
  .obj [("raceTitle", .str "U"), ("Reporting", .str "100%"),
        ("candidates", .arr [mkCand "A" "4001", mkCand "B" "4001", mkCand "C" "4001",
                             mkCand "D" "7997"])]

/-- C1: for every contest accepted by the transform, when the total of the
parsed vote counts is positive each candidate's `votes_percent` is the
quotient of its votes by the total rounded to 4 decimal places, and when
the total is zero every candidate's `votes_percent` is exactly `0.0`.  (In
an accepted contest every parsed count is nonnegative, so these two cases
are exhaustive.) -/
theorem C1_vote_share_formula (slugify : String → String) (cors : List Correction)
    (raw : JSON) (contest : Contest)
    (h : ContestTransformer.dump slugify cors raw = .ok contest) :
    (0 < (contest.candidates.map CandidateResult.votes).sum →
      ∀ r ∈ contest.candidates,
        r.votes_percent = round4 ((r.votes : ℚ)
          / (((contest.candidates.map CandidateResult.votes).sum : ℤ) : ℚ))) ∧
    ((contest.candidates.map CandidateResult.votes).sum = 0 →
      ∀ r ∈ contest.candidates, r.votes_percent = 0) := by
  obtain ⟨rawCands, hrc, hlen, hnames, hmem⟩ := ContestTransformer.dump_ok_spec h
  constructor
  · intro hT r hr
    rw [(hmem r hr).2, sharePct, if_pos hT]
  · intro hT r hr
    rw [(hmem r hr).2, sharePct, if_neg (by omega)]

/-- C1 witness: the formula evaluated on a concrete two-candidate contest. -/
theorem C1_vote_share_formula_witness :
    ContestTransformer.dump (fun s => s) [] rawRaceAB = .ok contestRaceAB ∧
    ((0 < (contestRaceAB.candidates.map CandidateResult.votes).sum →
      ∀ r ∈ contestRaceAB.candidates,
        r.votes_percent = round4 ((r.votes : ℚ)
          / (((contestRaceAB.candidates.map CandidateResult.votes).sum : ℤ) : ℚ))) ∧
     ((contestRaceAB.candidates.map CandidateResult.votes).sum = 0 →
      ∀ r ∈ contestRaceAB.candidates, r.votes_percent = 0)) :=
  ⟨by with_unfolding_all rfl,
   C1_vote_share_formula (fun s => s) [] rawRaceAB contestRaceAB (by with_unfolding_all rfl)⟩

/-- C6 counterexample: a five-candidate contest with total 50000, and even
a four-candidate contest with total 20000, on which the rounded shares sum
to 4999/5000 = 0.9998, farther than 1e-4 from 1. -/
theorem C6_counterexample :
    (ContestTransformer.dump (fun s => s) [] rawFiveCands).map
        (fun c => (c.candidates.map CandidateResult.votes).sum) = .ok 50000 ∧
    (ContestTransformer.dump (fun s => s) [] rawFiveCands).map
        (fun c => (c.candidates.map CandidateResult.votes_percent).sum) = .ok (4999 / 5000) ∧
    (ContestTransformer.dump (fun s => s) [] rawFourCands).map
        (fun c => (c.candidates.map CandidateResult.votes).sum) = .ok 20000 ∧
    (ContestTransformer.dump (fun s => s) [] rawFourCands).map
        (fun c => (c.candidates.map CandidateResult.votes_percent).sum) = .ok (4999 / 5000) ∧
    ¬ |(4999 / 5000 : ℚ) - 1| ≤ 1 / 10000 := by
  refine ⟨by with_unfolding_all rfl, by with_unfolding_all rfl,
    by with_unfolding_all rfl, by with_unfolding_all rfl, ?_⟩
  rw [show (4999 / 5000 : ℚ) - 1 = -(1 / 5000) by norm_num, abs_neg,
    abs_of_nonneg (by norm_num : (0 : ℚ) ≤ 1 / 5000)]
  norm_num

/-- C6 (amended): with each share rounded to 4 decimal places, the sum of
an accepted contest's `votes_percent` values is within n * 0.00005 of 1.0
when the vote total is positive, where n is the number of candidates.  A
flat 1e-4 bound fails already at four candidates (see the counterexample's
4001, 4001, 4001, 7997 contest, where every share hits an exact .00005 tie
and rounds down to an even digit). -/
theorem C6_amended_share_sum_bound (slugify : String → String) (cors : List Correction)
    (raw : JSON) (contest : Contest)
    (h : ContestTransformer.dump slugify cors raw = .ok contest)
    (hT : 0 < (contest.candidates.map CandidateResult.votes).sum) :
    |(contest.candidates.map CandidateResult.votes_percent).sum - 1|
      ≤ (contest.candidates.length : ℚ) * (1 / 20000) := by
  obtain ⟨rawCands, hrc, hlen, hnames, hmem⟩ := ContestTransformer.dump_ok_spec h
  have hprop : ∀ r ∈ contest.candidates,
      r.votes_percent = sharePct ((contest.candidates.map CandidateResult.votes).sum) r.votes :=
    fun r hr => (hmem r hr).2
  have hb := sum_sharePct_close hT contest.candidates hprop
  have hcast : (((contest.candidates.map CandidateResult.votes).sum : ℤ) : ℚ) ≠ 0 :=
    Int.cast_ne_zero.mpr (by omega)
  have hexact : (contest.candidates.map
      (fun r => (r.votes : ℚ)
        / (((contest.candidates.map CandidateResult.votes).sum : ℤ) : ℚ))).sum = 1 := by
    rw [list_sum_div, list_votes_cast, div_self hcast]
  rw [hexact] at hb
  exact hb

/-- C6 (amended) witness: the bound evaluated on a concrete contest. -/
theorem C6_amended_share_sum_bound_witness :
    ContestTransformer.dump (fun s => s) [] rawRaceAB = .ok contestRaceAB ∧
    0 < (contestRaceAB.candidates.map CandidateResult.votes).sum ∧
    |(contestRaceAB.candidates.map CandidateResult.votes_percent).sum - 1|
      ≤ (contestRaceAB.candidates.length : ℚ) * (1 / 20000) :=
  ⟨by with_unfolding_all rfl, by with_unfolding_all decide,
   C6_amended_share_sum_bound (fun s => s) [] rawRaceAB contestRaceAB
     (by with_unfolding_all rfl) (by with_unfolding_all decide)⟩

/-- C10: an accepted contest has exactly one output candidate per raw
candidate, in the same order: the i-th output candidate's name is the i-th
raw candidate's `Name` value. -/
theorem C10_candidates_preserved (slugify : String → String) (cors : List Correction)
    (raw : JSON) (contest : Contest) (rawCands : List JSON)
    (h : ContestTransformer.dump slugify cors raw = .ok contest)
    (hc : raw.get "candidates" = some (.arr rawCands)) :
    contest.candidates.length = rawCands.length ∧
    ∀ i (h1 : i < rawCands.length) (h2 : i < contest.candidates.length),
      rawCands[i].get "Name" = some (.str (contest.candidates[i].name)) := by
  obtain ⟨rc, hrc, hlen, hnames, _⟩ := ContestTransformer.dump_ok_spec h
  have heq : rc = rawCands := by
    rw [hrc] at hc
    simpa using hc
  subst heq
  exact ⟨hlen, hnames⟩

/-- C10 witness: candidate count and order on a concrete contest. -/
theorem C10_candidates_preserved_witness :
    ContestTransformer.dump (fun s => s) [] rawRaceAB = .ok contestRaceAB ∧
    rawRaceAB.get "candidates" = some (.arr [mkCand "A" "1", mkCand "B" "1"]) ∧
    (contestRaceAB.candidates.length = [mkCand "A" "1", mkCand "B" "1"].length ∧
    ∀ i (h1 : i < [mkCand "A" "1", mkCand "B" "1"].length)
        (h2 : i < contestRaceAB.candidates.length),
      [mkCand "A" "1", mkCand "B" "1"][i].get "Name"
        = some (.str (contestRaceAB.candidates[i].name))) :=
  ⟨by with_unfolding_all rfl, by rfl,
   C10_candidates_preserved (fun s => s) [] rawRaceAB contestRaceAB _
     (by with_unfolding_all rfl) (by rfl)⟩

/-- C2: a contest is kept exactly when no correction row exists for its raw
title or the row's include flag equals "yes" case-insensitively; and the
output race list of the per-contest loop is the dump of precisely the kept
contests, in order. -/
theorem C2_inclusion_rule :
    (∀ (raw : JSON) (cors : List Correction),
      ContestTransformer.includeRecord raw cors = true ↔
        ContestTransformer.get_correction raw cors = none ∨
        ∃ corr, ContestTransformer.get_correction raw cors = some corr ∧
          pyLower corr.incl = pyLower "yes") ∧
    (∀ (slugify : String → String) (cors : List Correction) (contests : List JSON),
      processContests slugify cors contests
        = exMapM (ContestTransformer.dump slugify cors)
            (contests.filter (fun x => ContestTransformer.includeRecord x cors))) := by
  constructor
  · intro raw cors
    have hy : pyLower "yes" = "yes" := rfl
    cases hgc : ContestTransformer.get_correction raw cors with
    | none => simp [ContestTransformer.includeRecord, hgc]
    | some corr => simp [ContestTransformer.includeRecord, hgc, hy]
  · intro slugify cors contests
    exact processContests_eq_filter slugify cors contests

/-- C3: when a correction row with a non-empty clean name matches, the
output contest's name is that clean name while the slug is still computed
from the raw title; with no correction row, or an empty clean name, the
name is the raw title itself; in every case the slug comes from the raw
title only. -/
theorem C3_name_override_slug_from_raw (slugify : String → String) (cors : List Correction)
    (raw : JSON) (contest : Contest) (title : String)
    (h : ContestTransformer.dump slugify cors raw = .ok contest)
    (ht : raw.get "raceTitle" = some (.str title)) :
    contest.slug = slugify title ∧
    (∀ corr, ContestTransformer.get_correction raw cors = some corr → corr.clean_name ≠ "" →
      contest.name = corr.clean_name) ∧
    ((ContestTransformer.get_correction raw cors = none ∨
      ∃ corr, ContestTransformer.get_correction raw cors = some corr ∧ corr.clean_name = "") →
      contest.name = title) := by
  obtain ⟨titleJ, htJ, hslug, hcn⟩ := ContestTransformer.dump_ok_name_slug h
  have heq : titleJ = .str title := by
    rw [htJ] at ht
    simpa using ht
  subst heq
  refine ⟨hslug, ?_, ?_⟩
  · intro corr hcorr hne
    rw [ContestTransformer.correct_name] at hcn
    simp only [hcorr] at hcn
    rw [if_neg hne] at hcn
    have h2 : corr.clean_name = contest.name := by simpa using hcn
    exact h2.symm
  · intro hd
    have hgetE : raw.getE "raceTitle" = .ok (.str title) := JSON.getE_ok_iff.mpr ht
    rcases hd with hnone | ⟨corr, hcorr, hempty⟩
    · rw [ContestTransformer.correct_name] at hcn
      simp only [hnone] at hcn
      rw [hgetE] at hcn
      have h2 : title = contest.name := by simpa using hcn
      exact h2.symm
    · rw [ContestTransformer.correct_name] at hcn
      simp only [hcorr] at hcn
      rw [if_pos hempty, hgetE] at hcn
      have h2 : title = contest.name := by simpa using hcn
      exact h2.symm

/-- The correction table of the C3 witness: it renames "Messy Title". -/
def corsClean : List Correction := [⟨"Messy Title", "yes", "Clean Title", "", "", ""⟩]

/-- A raw contest whose title has a renaming correction row. -/
def rawMessy : JSON :=
  .obj [("raceTitle", .str "Messy Title"), ("Reporting", .str "0%"),
        ("candidates", .arr [mkCand "A" "3"])]

/-- The canonical contest produced from `rawMessy` under `corsClean`. -/
def contestMessy : Contest :=
  ⟨"Clean Title", "Messy Title", none, none, .str "0%", [⟨"A", none, 3, 1, none⟩]⟩

/-- C3 witness: the clean name is used while the slug still comes from the
raw title, on a concrete corrected contest. -/
theorem C3_name_override_slug_from_raw_witness :
    ContestTransformer.dump (fun s => s) corsClean rawMessy = .ok contestMessy ∧
    rawMessy.get "raceTitle" = some (.str "Messy Title") ∧
    (contestMessy.slug = (fun s => s) "Messy Title" ∧
    (∀ corr, ContestTransformer.get_correction rawMessy corsClean = some corr →
      corr.clean_name ≠ "" → contestMessy.name = corr.clean_name) ∧
    ((ContestTransformer.get_correction rawMessy corsClean = none ∨
      ∃ corr, ContestTransformer.get_correction rawMessy corsClean = some corr ∧
        corr.clean_name = "") →
      contestMessy.name = "Messy Title")) :=
  ⟨by with_unfolding_all rfl, by rfl,
   C3_name_override_slug_from_raw (fun s => s) corsClean rawMessy contestMessy "Messy Title"
     (by with_unfolding_all rfl) (by rfl)⟩

/-- C4 counterexample: after stripping and comma removal the string "-5" is
not a non-negative integer, yet `clean_votes` succeeds and returns -5
instead of failing with `MalformedVoteCount`. -/
theorem C4_counterexample :
    clean_votes (JSON.str "-5") = .ok (-5) ∧ (-5 : Int) < 0 := by
  exact ⟨rfl, by decide⟩

/-- C4 (amended): vote-count parsing strips surrounding whitespace, removes
all commas, and then accepts exactly Python's signed integer literals (an
optional sign, digits with single underscores between digits), returning
the signed value — negative strings such as "-5" parse to negative
integers rather than failing; everything else fails with
`MalformedVoteCount`.  The concrete examples of the spec still hold. -/
theorem C4_amended_parsing :
    (∀ s : String, clean_votes (.str s) = match spec_clean_votes s with
      | some n => .ok n
      | none => .error (.malformedVoteCount s)) ∧
    clean_votes (.str "12,345") = .ok 12345 ∧
    clean_votes (.str " 42 ") = .ok 42 ∧
    clean_votes (.str "abc") = .error (.malformedVoteCount "abc") ∧
    clean_votes (.str "-5") = .ok (-5) :=
  ⟨clean_votes_spec, rfl, rfl, rfl, rfl⟩

/-- The correction table of the C5 example: it marks "Alice Smith" as the
incumbent of contest "R". -/
def corsInc : List Correction := [⟨"R", "yes", "", "", "", "Alice Smith"⟩]

/-- A raw contest whose title matches the incumbent-marking correction. -/
def rawContestR : JSON := .obj [("raceTitle", .str "R")]

/-- C5 counterexample: under an incumbent correction listing only "Alice",
a candidate named "Bob" whose dict already carries `incumbent = true` does
not keep that value — the marking loop overwrites it with `false`. -/
theorem C5_counterexample :
    ContestTransformer.correct_incumbent
        (JSON.obj [("raceTitle", .str "R")]) [⟨"R", "yes", "", "", "", "Alice"⟩]
        [JSON.obj [("Name", .str "Bob"), ("incumbent", .bool true)]]
      = .ok [JSON.obj [("Name", .str "Bob"), ("incumbent", .bool false)]] ∧
    JSON.bool false ≠ JSON.bool true := by
  exact ⟨rfl, by simp⟩

/-- C5 (amended): when a correction row exists and carries a non-empty
incumbent value, every candidate's `incumbent` key is overwritten with the
boolean membership test of its name against that value — `true` for
members, `false` (not the prior value) for everyone else; when no row
matches or the incumbent cell is empty, the candidate list is returned
unchanged. -/
theorem C5_amended_incumbent_overwrite :
    (∀ (raw : JSON) (cors : List Correction) (cands out : List JSON) (corr : Correction),
      ContestTransformer.get_correction raw cors = some corr → corr.incumbent ≠ "" →
      ContestTransformer.correct_incumbent raw cors cands = .ok out →
      out.length = cands.length ∧
      ∀ i (h1 : i < cands.length) (h2 : i < out.length), ∃ nm,
        cands[i].get "Name" = some (.str nm) ∧
        out[i] = cands[i].set "incumbent" (.bool (strContains corr.incumbent nm))) ∧
    (∀ (raw : JSON) (cors : List Correction) (cands : List JSON),
      (ContestTransformer.get_correction raw cors = none ∨
        ∃ corr, ContestTransformer.get_correction raw cors = some corr ∧ corr.incumbent = "") →
      ContestTransformer.correct_incumbent raw cors cands = .ok cands) := by
  constructor
  · intro raw cors cands out corr hcorr hne hout
    rw [ContestTransformer.correct_incumbent] at hout
    simp only [hcorr] at hout
    rw [if_neg hne] at hout
    refine ⟨exMapM_ok_length hout, fun i h1 h2 => ?_⟩
    obtain ⟨s, hs, hset⟩ := markIncumbent_ok (exMapM_ok_getElem hout i h1 h2)
    exact ⟨s, hs, hset⟩
  · intro raw cors cands hd
    rw [ContestTransformer.correct_incumbent]
    rcases hd with hnone | ⟨corr, hcorr, hemp⟩
    · simp only [hnone]
    · simp only [hcorr]
      rw [if_pos hemp]

/-- The candidate list of the C5 witness: Alice with no incumbent key, Bob
already marked incumbent. -/
def candsC5 : List JSON :=
  [mkCand "Alice Smith" "1", JSON.obj [("Name", .str "Bob"), ("incumbent", .bool true)]]

/-- The marked candidate list: Alice's key is appended as true, Bob's prior
true is overwritten with false. -/
def outC5 : List JSON :=
  [JSON.obj [("Name", .str "Alice Smith"), ("Votes", .str "1"), ("incumbent", .bool true)],
   JSON.obj [("Name", .str "Bob"), ("incumbent", .bool false)]]

/-- C5 (amended) witness: on a concrete contest, "Alice Smith" is marked
true and "Bob", previously marked true, is overwritten to false. -/
theorem C5_amended_incumbent_overwrite_witness :
    ContestTransformer.get_correction rawContestR corsInc
      = some ⟨"R", "yes", "", "", "", "Alice Smith"⟩ ∧
    ContestTransformer.correct_incumbent rawContestR corsInc candsC5 = .ok outC5 ∧
    (outC5.length = candsC5.length ∧
     ∀ i (h1 : i < candsC5.length) (h2 : i < outC5.length), ∃ nm,
       candsC5[i].get "Name" = some (.str nm) ∧
       outC5[i] = candsC5[i].set "incumbent" (.bool (strContains "Alice Smith" nm))) :=
  ⟨rfl, rfl,
   C5_amended_incumbent_overwrite.1 rawContestR corsInc candsC5 outC5
     ⟨"R", "yes", "", "", "", "Alice Smith"⟩ rfl (by decide) rfl⟩

/-- The contest dict the spec prescribes for one supreme-court retention
entry `e` of a document reporting `rep`. -/
def scContestOf (rep e : JSON) : JSON :=
  .obj [("raceTitle",
          .str ("Retain Supreme Court Justice " ++ ((e.get "Name").getD .null).pyStr)),
        ("Reporting", rep),
        ("candidates",
          .arr [.obj [("Name", .str "Yes"), ("Votes", (e.get "yesVotes").getD .null)],
                .obj [("Name", .str "No"), ("Votes", (e.get "noVotes").getD .null)]])]

/-- C7: a document with a `races` key contributes exactly the elements of
that list, whatever its category slug; a supreme-court document without a
`races` key contributes, per entry of its category-named list in order, one
synthesized retention contest with exactly the two candidates "Yes" and
"No" carrying the entry's `yesVotes` and `noVotes`, and the document's
top-level `Reporting` value. -/
theorem C7_flattener_dispatch :
    (∀ (slug : String) (raw : JSON) (l : List JSON),
      raw.get "races" = some (.arr l) → flattenDoc slug raw = .ok l) ∧
    (∀ (raw : JSON) (entries : List JSON) (rep : JSON),
      raw.get "races" = none →
      raw.get "supreme-court" = some (.arr entries) →
      raw.get "Reporting" = some rep →
      (∀ e ∈ entries, (e.get "Name").isSome ∧ (e.get "yesVotes").isSome ∧
        (e.get "noVotes").isSome) →
      flattenDoc "supreme-court" raw = .ok (entries.map (scContestOf rep))) := by
  constructor
  · intro slug raw l h
    rw [flattenDoc]
    simp only [h]
    rfl
  · intro raw entries rep h0 hsc hrep hall
    rw [flattenDoc]
    simp only [h0]
    rw [if_pos trivial, JSON.getE_ok_iff.mpr hsc, exBind_left]
    simp only [JSON.asArr]
    rw [exBind_left]
    apply exMapM_ok_of_all
    intro e he
    obtain ⟨hn, hy, hno⟩ := hall e he
    obtain ⟨nm, hnm⟩ := Option.isSome_iff_exists.mp hn
    obtain ⟨yv, hyv⟩ := Option.isSome_iff_exists.mp hy
    obtain ⟨nv, hnv⟩ := Option.isSome_iff_exists.mp hno
    rw [scEntry, JSON.getE_ok_iff.mpr hnm, exBind_left, JSON.getE_ok_iff.mpr hrep,
      exBind_left, JSON.getE_ok_iff.mpr hyv, exBind_left, JSON.getE_ok_iff.mpr hnv,
      exBind_left, exPure_ok]
    simp [scContestOf, hnm, hyv, hnv]

/-- A raw document carrying a `races` list. -/
def docWithRaces : JSON := .obj [("races", .arr [rawRaceAB])]

/-- The supreme-court retention entry of the spec's synthesis example. -/
def entrySmith : JSON :=
  .obj [("Name", .str "Smith"), ("yesVotes", .str "100"), ("noVotes", .str "50")]

/-- The spec's supreme-court document example. -/
def scDocSmith : JSON :=
  .obj [("supreme-court", .arr [entrySmith]), ("Reporting", .str "80%")]

/-- C7 witness: both dispatch branches evaluated on concrete documents. -/
theorem C7_flattener_dispatch_witness :
    flattenDoc "supreme-court" docWithRaces = .ok [rawRaceAB] ∧
    flattenDoc "supreme-court" scDocSmith
      = .ok ([entrySmith].map (scContestOf (.str "80%"))) :=
  ⟨C7_flattener_dispatch.1 "supreme-court" docWithRaces [rawRaceAB] rfl,
   C7_flattener_dispatch.2 scDocSmith [entrySmith] (.str "80%") rfl rfl rfl
     (by
       intro e he
       rw [List.mem_singleton] at he
       subst he
       exact ⟨rfl, rfl, rfl⟩)⟩

/-- C8: the transformation is deterministic — two runs over equal raw
document lists and equal correction tables, with the same injected
timestamp, produce equal `races` arrays. -/
theorem C8_determinism (slugify : String → String) (docs1 docs2 : List (String × JSON))
    (cors1 cors2 : List Correction) (now1 now2 : String)
    (h1 : docs1 = docs2) (h2 : cors1 = cors2) (h3 : now1 = now2) :
    (cliBatch slugify docs1 cors1 now1).map TransformedBatch.races
      = (cliBatch slugify docs2 cors2 now2).map TransformedBatch.races := by
  rw [h1, h2, h3]

/-- C8 witness: two identical concrete runs agree (and produce the expected
concrete batch). -/
theorem C8_determinism_witness :
    cliBatch (fun s => s) [("governor", rawRaceAB)] [] "t" = .ok ⟨"t", [contestRaceAB]⟩ ∧
    (cliBatch (fun s => s) [("governor", rawRaceAB)] [] "t").map TransformedBatch.races
      = (cliBatch (fun s => s) [("governor", rawRaceAB)] [] "t").map TransformedBatch.races :=
  ⟨by with_unfolding_all rfl,
   C8_determinism (fun s => s) [("governor", rawRaceAB)] [("governor", rawRaceAB)] [] []
     "t" "t" rfl rfl rfl⟩

/-- C9: when flattening or normalization fails, the error reaches the
driver before the write step, and neither the timestamped output file nor
`latest.json` is written or overwritten — the output store is unchanged. -/
theorem C9_no_write_on_error (slugify : String → String) (docs : List (String × JSON))
    (cors : List Correction) (now : String)
    (store : List (String × TransformedBatch)) (e : Err)
    (h : cliBatch slugify docs cors now = .error e) :
    runCli slugify docs cors now store = store := by
  rw [runCli, h]

/-- A raw document whose only candidate has an unparseable vote count. -/
def docsBadVotes : List (String × JSON) :=
  [("governor", .obj [("raceTitle", .str "G"), ("Reporting", .str "1%"),
                      ("candidates", .arr [mkCand "X" "abc"])])]

/-- A pre-existing output store holding an older `latest.json`. -/
def storeOld : List (String × TransformedBatch) := [("latest.json", ⟨"old", []⟩)]

/-- C9 witness: a malformed vote count aborts the run and the concrete
store is untouched. -/
theorem C9_no_write_on_error_witness :
    cliBatch (fun s => s) docsBadVotes [] "t" = .error (.malformedVoteCount "abc") ∧
    runCli (fun s => s) docsBadVotes [] "t" storeOld = storeOld :=
  ⟨rfl, C9_no_write_on_error (fun s => s) docsBadVotes [] "t" storeOld
    (.malformedVoteCount "abc") rfl⟩
